import Mathlib

/-!
Shallow embedding of the `cryo` crate's lock backends and guarded-cell
protocol (files `src/lib.rs`, `src/lock.rs`, `src/lock/local.rs`,
`src/lock/panicking.rs`, `src/lock/stdimp.rs`).

The lock state of every backend is one `usize` counter; we model it as a
`Nat` that is kept below `2^64`, with wrapping arithmetic written out as
`% WORD` where the Rust code uses wrapping atomics (`fetch_add` /
`fetch_sub`).  An operation that can panic or park the calling thread
returns a `LockResult` recording the outcome together with the counter
value left behind; operations that always return normally are plain
functions on the counter.
-/

/-- Number of `usize` values, i.e. 2^64 (the crate targets 64-bit words). -/
def WORD : Nat := 18446744073709551616

/-- Outcome of a lock operation, with the counter value it leaves behind:
`ok` is a normal return, `panics` models `panic!` with the given message
(the process aborts), `blocked` models the sequential view of
`thread::park()` with nobody left to issue an unpark. -/
inductive LockResult where
  | ok (c : Nat)
  | panics (msg : String) (c : Nat)
  | blocked (c : Nat)
deriving DecidableEq

/-- Panic message of `borrow_fail` in `src/lock/local.rs`. -/
def deadlockMsg : String := "deadlock"

/-- Panic message of `borrow_fail` in `src/lock/panicking.rs`. -/
def lockedMsg : String := "locked"

/-- Panic message of `SyncLock::lock_shared_slow` in `src/lock/stdimp.rs`. -/
def overflowMsg : String := "lock counter overflow"

namespace LocalLock

/-- `const EXCLUSIVE: usize = usize::max_value()` (`src/lock/local.rs`). -/
def EXCLUSIVE : Nat := WORD - 1

/-- `LocalLock::lock_shared`: panics via `borrow_fail()` when
`count >= EXCLUSIVE - 1`, otherwise `count.set(count.get() + 1)`. -/
def lock_shared (c : Nat) : LockResult :=
  if c ≥ EXCLUSIVE - 1 then LockResult.panics deadlockMsg c
  else LockResult.ok (c + 1)

/-- `LocalLock::try_lock_shared`: returns `false` when
`count >= EXCLUSIVE - 1`, otherwise increments and returns `true`. -/
def try_lock_shared (c : Nat) : Bool × Nat :=
  if c ≥ EXCLUSIVE - 1 then (false, c) else (true, c + 1)

/-- `LocalLock::unlock_shared`: `count.set(count.get() - 1)` — a wrapping
`usize` subtraction in release builds. -/
def unlock_shared (c : Nat) : Nat := (c + (WORD - 1)) % WORD

/-- `LocalLock::lock_exclusive`: panics via `borrow_fail()` when
`count != 0`, otherwise `count.set(EXCLUSIVE)`. -/
def lock_exclusive (c : Nat) : LockResult :=
  if c ≠ 0 then LockResult.panics deadlockMsg c
  else LockResult.ok EXCLUSIVE

/-- `LocalLock::try_lock_exclusive`: `false` when `count != 0`, otherwise
sets the counter to `EXCLUSIVE` and returns `true`. -/
def try_lock_exclusive (c : Nat) : Bool × Nat :=
  if c ≠ 0 then (false, c) else (true, EXCLUSIVE)

/-- `LocalLock::unlock_exclusive`: `count.set(0)`. -/
def unlock_exclusive (_c : Nat) : Nat := 0

end LocalLock

namespace AtomicLock

/-- `const EXCLUSIVE_FLAG: usize = !(usize::max_value() >> 1)`, i.e. 2^63
(`src/lock/panicking.rs`). -/
def EXCLUSIVE_FLAG : Nat := 9223372036854775808

/-- `AtomicLock::try_lock_shared`: `fetch_add(1)` (wrapping), success iff
the previous value is `< EXCLUSIVE_FLAG / 2`; on failure the increment is
reverted with `fetch_sub(1)`. -/
def try_lock_shared (c : Nat) : Bool × Nat :=
  if c < EXCLUSIVE_FLAG / 2 then (true, (c + 1) % WORD)
  else (false, ((c + 1) % WORD + (WORD - 1)) % WORD)

/-- `AtomicLock::lock_shared`: `try_lock_shared`, panicking via
`borrow_fail()` on failure. -/
def lock_shared (c : Nat) : LockResult :=
  match try_lock_shared c with
  | (true, c1) => LockResult.ok c1
  | (false, c1) => LockResult.panics lockedMsg c1

/-- `AtomicLock::unlock_shared`: `fetch_sub(1)` (wrapping). -/
def unlock_shared (c : Nat) : Nat := (c + (WORD - 1)) % WORD

/-- `AtomicLock::try_lock_exclusive`:
`compare_exchange(0, EXCLUSIVE_FLAG)`. -/
def try_lock_exclusive (c : Nat) : Bool × Nat :=
  if c = 0 then (true, EXCLUSIVE_FLAG) else (false, c)

/-- `AtomicLock::lock_exclusive`: `try_lock_exclusive`, panicking via
`borrow_fail()` on failure. -/
def lock_exclusive (c : Nat) : LockResult :=
  match try_lock_exclusive c with
  | (true, c1) => LockResult.ok c1
  | (false, c1) => LockResult.panics lockedMsg c1

/-- `AtomicLock::unlock_exclusive`: `fetch_sub(EXCLUSIVE_FLAG)`
(wrapping). -/
def unlock_exclusive (c : Nat) : Nat := (c + (WORD - EXCLUSIVE_FLAG)) % WORD

end AtomicLock

namespace SyncLock

/-- `const PARKED_FLAG: usize = !(usize::max_value() >> 1)`, i.e. 2^63
(`src/lock/stdimp.rs`). -/
def PARKED_FLAG : Nat := 9223372036854775808

/-- `const EXCLUSIVE_FLAG: usize = PARKED_FLAG >> 1`, i.e. 2^62. -/
def EXCLUSIVE_FLAG : Nat := 4611686018427387904

/-- `SyncLock::lock_shared_slow`, sequential view.  Arguments: `old` is
the `old_count` read by the caller's `fetch_add(1)`, `c1` the counter
after that `fetch_add`.  When `old == EXCLUSIVE_FLAG - 2` the increment is
reverted (`fetch_sub(1)`) and the function panics with
"lock counter overflow".  Otherwise it attempts
`compare_exchange(EXCLUSIVE_FLAG + 1, PARKED_FLAG | EXCLUSIVE_FLAG)`: on
success the thread parks (no other thread exists in the sequential model
to unpark it), on failure ("it was unlocked before the compare_exchange")
the call returns normally. -/
def lock_shared_slow (old c1 : Nat) : LockResult :=
  if old = EXCLUSIVE_FLAG - 2 then
    LockResult.panics overflowMsg ((c1 + (WORD - 1)) % WORD)
  else if c1 = EXCLUSIVE_FLAG + 1 then
    LockResult.blocked (PARKED_FLAG + EXCLUSIVE_FLAG)
  else LockResult.ok c1

/-- `SyncLock::lock_shared`: `fetch_add(1)` (wrapping); success when the
previous value is `< EXCLUSIVE_FLAG - 2`, otherwise the slow path runs. -/
def lock_shared (c : Nat) : LockResult :=
  if c < EXCLUSIVE_FLAG - 2 then LockResult.ok ((c + 1) % WORD)
  else lock_shared_slow c ((c + 1) % WORD)

/-- `SyncLock::try_lock_shared`: `fetch_add(1)` (wrapping); success when
the previous value is `< EXCLUSIVE_FLAG - 2`, else the increment is
reverted with `fetch_sub(1)` and the call returns `false`. -/
def try_lock_shared (c : Nat) : Bool × Nat :=
  if c < EXCLUSIVE_FLAG - 2 then (true, (c + 1) % WORD)
  else (false, ((c + 1) % WORD + (WORD - 1)) % WORD)

/-- `SyncLock::unlock_shared`: `fetch_sub(1)`, matching on the previous
value; if it was `1 | PARKED_FLAG` the counter is reset to `0` and the
parked creator thread is unparked. -/
def unlock_shared (c : Nat) : Nat :=
  if c = PARKED_FLAG + 1 then 0 else (c + (WORD - 1)) % WORD

/-- `SyncLock::lock_exclusive_slow`, sequential view: `fetch_add(PARKED_FLAG)`;
if the previous value was `0` the lock was released in the meantime and the
call proceeds to store `EXCLUSIVE_FLAG`, otherwise the thread parks. -/
def lock_exclusive_slow (c : Nat) : LockResult :=
  if c = 0 then LockResult.ok EXCLUSIVE_FLAG
  else LockResult.blocked ((c + PARKED_FLAG) % WORD)

/-- `SyncLock::lock_exclusive`: load; on `0`, store `EXCLUSIVE_FLAG`
(non-atomic store justified by `LockMarker: !Send`); otherwise the slow
path runs. -/
def lock_exclusive (c : Nat) : LockResult :=
  if c = 0 then LockResult.ok EXCLUSIVE_FLAG
  else lock_exclusive_slow c

/-- `SyncLock::try_lock_exclusive`: load; on `0` store `EXCLUSIVE_FLAG`
and return `true`, else return `false`. -/
def try_lock_exclusive (c : Nat) : Bool × Nat :=
  if c = 0 then (true, EXCLUSIVE_FLAG) else (false, c)

/-- `SyncLock::unlock_exclusive`: `fetch_sub(EXCLUSIVE_FLAG)` (wrapping);
if the previous value was `PARKED_FLAG | EXCLUSIVE_FLAG` the counter is
reset to `0` and the parked creator thread is unparked. -/
def unlock_exclusive (c : Nat) : Nat :=
  if c = PARKED_FLAG + EXCLUSIVE_FLAG then 0
  else (c + (WORD - EXCLUSIVE_FLAG)) % WORD

end SyncLock

/-- The subset of the `Lock` trait (`src/lock.rs`) needed by the generic
cell code in `src/lib.rs`, as a record of counter-transformers. -/
structure LockOps where
  lockShared : Nat → LockResult
  tryLockShared : Nat → Bool × Nat
  unlockShared : Nat → Nat
  lockExclusive : Nat → LockResult
  tryLockExclusive : Nat → Bool × Nat
  unlockExclusive : Nat → Nat

/-- `impl Lock for LocalLock` (`src/lock/local.rs`). -/
def localOps : LockOps :=
  { lockShared := LocalLock.lock_shared
    tryLockShared := LocalLock.try_lock_shared
    unlockShared := LocalLock.unlock_shared
    lockExclusive := LocalLock.lock_exclusive
    tryLockExclusive := LocalLock.try_lock_exclusive
    unlockExclusive := LocalLock.unlock_exclusive }

/-- `impl Lock for AtomicLock` (`src/lock/panicking.rs`). -/
def atomicOps : LockOps :=
  { lockShared := AtomicLock.lock_shared
    tryLockShared := AtomicLock.try_lock_shared
    unlockShared := AtomicLock.unlock_shared
    lockExclusive := AtomicLock.lock_exclusive
    tryLockExclusive := AtomicLock.try_lock_exclusive
    unlockExclusive := AtomicLock.unlock_exclusive }

/-- `impl Lock for SyncLock` (`src/lock/stdimp.rs`), sequential view. -/
def syncOps : LockOps :=
  { lockShared := SyncLock.lock_shared
    tryLockShared := SyncLock.try_lock_shared
    unlockShared := SyncLock.unlock_shared
    lockExclusive := SyncLock.lock_exclusive
    tryLockExclusive := SyncLock.try_lock_exclusive
    unlockExclusive := SyncLock.unlock_exclusive }

/-- `struct State<T, Lock> { data: NonNull<T>, lock: Lock }`
(`src/lib.rs`): the address of the protected value plus the lock counter.
The address is opaque to the protocol, so a `Nat` stands for it. -/
structure CryoState where
  data : Nat
  lock : Nat
deriving DecidableEq

/-- `impl Drop for Cryo` (`src/lib.rs` lines 373-381): the destructor
performs `lock_exclusive` on the cell's lock and nothing else — in
particular it never calls an unlock operation. -/
def Cryo.dropCell (L : LockOps) (s : CryoState) : LockResult :=
  L.lockExclusive s.lock

/-- `impl Drop for CryoMut` (`src/lib.rs` lines 487-495): identical to
`Cryo`'s destructor — one `lock_exclusive`, no release. -/
def CryoMut.dropCell (L : LockOps) (s : CryoState) : LockResult :=
  L.lockExclusive s.lock

/-- `CryoMut::try_write` (`src/lib.rs`): `try_lock_exclusive` on the
cell's lock; a write guard exists exactly when it returns `true`. -/
def CryoMut.try_write (L : LockOps) (c : Nat) : Bool × Nat :=
  L.tryLockExclusive c

/-- `impl Drop for CryoMutWriteGuard` (`src/lib.rs`): `unlock_exclusive`. -/
def CryoMutWriteGuard.dropGuard (L : LockOps) (c : Nat) : Nat :=
  L.unlockExclusive c

/-- `impl Drop for CryoMutReadGuard` (`src/lib.rs` lines 534-542):
`unlock_shared`. -/
def CryoMutReadGuard.dropGuard (L : LockOps) (c : Nat) : Nat :=
  L.unlockShared c

/-- `CryoMut::try_get_mut` (`src/lib.rs` lines 454-463): tries
`try_write`; when the write guard is obtained, the guard temporary is
dropped (releasing the exclusive lock) and a direct `&mut` through the
stored address is returned; otherwise `None`, with the counter left as
the failed `try_lock_exclusive` left it. -/
def CryoMut.try_get_mut (L : LockOps) (s : CryoState) : Option Nat × CryoState :=
  match L.tryLockExclusive s.lock with
  | (true, c1) => (some s.data, { s with lock := L.unlockExclusive c1 })
  | (false, c1) => (none, { s with lock := c1 })

/-- A shared-borrow event in the guard lifecycle of `src/lib.rs`:
`acquire` is `Cryo::borrow`, `CryoMut::read` or `CryoMutReadGuard::clone`
(each calls `lock_shared`); `release` is `CryoMutReadGuard`'s destructor
(calls `unlock_shared`). -/
inductive ShOp where
  | acquire
  | release
deriving DecidableEq

/-- Number of `acquire` events (shared guards ever created). -/
def countAcq : List ShOp → Nat
  | [] => 0
  | ShOp.acquire :: r => countAcq r + 1
  | ShOp.release :: r => countAcq r

/-- Number of `release` events (shared guards dropped). -/
def countRel : List ShOp → Nat
  | [] => 0
  | ShOp.acquire :: r => countRel r
  | ShOp.release :: r => countRel r + 1

/-- Live-guard count after the events, starting from `n` live guards
(dropping to zero on underflow, which well-formed sequences avoid). -/
def finalCnt : Nat → List ShOp → Nat
  | n, [] => n
  | n, ShOp.acquire :: r => finalCnt (n + 1) r
  | n, ShOp.release :: r => finalCnt (n - 1) r

/-- Run a sequence of shared acquire/release events against a backend,
threading the counter; a panicking or parked acquisition stops the run
with its outcome. -/
def runShared (L : LockOps) : List ShOp → Nat → LockResult
  | [], c => LockResult.ok c
  | ShOp.acquire :: rest, c =>
    match L.lockShared c with
    | LockResult.ok c1 => runShared L rest c1
    | r => r
  | ShOp.release :: rest, c => runShared L rest (L.unlockShared c)

/-- Well-formedness of an event sequence with `n` guards currently live:
every release matches a live guard, and the live count stays below
`bound` so that no acquisition hits the backend's abort threshold. -/
def goodSeq (bound : Nat) : Nat → List ShOp → Bool
  | _, [] => true
  | n, ShOp.acquire :: r => decide (n < bound) && goodSeq bound (n + 1) r
  | n, ShOp.release :: r => decide (0 < n) && goodSeq bound (n - 1) r

/-- Counter values encoding `n ≥ 1` shared holders of a `LocalLock`
(acquisitions succeed up to `EXCLUSIVE - 2`, so the count tops out at
`EXCLUSIVE - 1`). -/
abbrev localShared (c : Nat) : Prop := 1 ≤ c ∧ c ≤ LocalLock.EXCLUSIVE - 1

/-- The `LocalLock` counter is unlocked, a pure shared count, or the
exclusive sentinel. -/
abbrev localInv (c : Nat) : Prop :=
  c = 0 ∨ localShared c ∨ c = LocalLock.EXCLUSIVE

/-- Counter values encoding `n ≥ 1` shared holders of an `AtomicLock`
(acquisitions succeed below `EXCLUSIVE_FLAG / 2`). -/
abbrev atomicShared (c : Nat) : Prop := 1 ≤ c ∧ c ≤ AtomicLock.EXCLUSIVE_FLAG / 2

/-- The `AtomicLock` counter is unlocked, a pure shared count, or the
exclusive flag. -/
abbrev atomicInv (c : Nat) : Prop :=
  c = 0 ∨ atomicShared c ∨ c = AtomicLock.EXCLUSIVE_FLAG

/-- Counter values encoding `n ≥ 1` shared holders of a `SyncLock`
(acquisitions succeed below `EXCLUSIVE_FLAG - 2`). -/
abbrev syncShared (c : Nat) : Prop := 1 ≤ c ∧ c ≤ SyncLock.EXCLUSIVE_FLAG - 2

/-- The `SyncLock` counter is unlocked, a pure shared count, or the
exclusive flag. -/
abbrev syncInv (c : Nat) : Prop :=
  c = 0 ∨ syncShared c ∨ c = SyncLock.EXCLUSIVE_FLAG

/-- One completed `LocalLock` operation, counter to counter.  Locking
operations contribute a step only when they return (a panic aborts the
process); the unlock operations carry the `Lock` trait's preconditions,
which for `LocalLock` are exactly its `debug_assert`s. -/
inductive LocalStep : Nat → Nat → Prop where
  | lockSh {c c1 : Nat} :
      LocalLock.lock_shared c = LockResult.ok c1 → LocalStep c c1
  | tryLockSh {c : Nat} {b : Bool} {c1 : Nat} :
      LocalLock.try_lock_shared c = (b, c1) → LocalStep c c1
  | unlockSh {c : Nat} :
      c ≠ 0 → c ≠ LocalLock.EXCLUSIVE → LocalStep c (LocalLock.unlock_shared c)
  | lockEx {c c1 : Nat} :
      LocalLock.lock_exclusive c = LockResult.ok c1 → LocalStep c c1
  | tryLockEx {c : Nat} {b : Bool} {c1 : Nat} :
      LocalLock.try_lock_exclusive c = (b, c1) → LocalStep c c1
  | unlockEx {c : Nat} :
      c = LocalLock.EXCLUSIVE → LocalStep c (LocalLock.unlock_exclusive c)

/-- One completed `AtomicLock` operation, counter to counter.  The unlock
preconditions are the trait contract ("there must be a lock to release")
together with the code's `debug_assert`s on the exclusive bit. -/
inductive AtomicStep : Nat → Nat → Prop where
  | lockSh {c c1 : Nat} :
      AtomicLock.lock_shared c = LockResult.ok c1 → AtomicStep c c1
  | tryLockSh {c : Nat} {b : Bool} {c1 : Nat} :
      AtomicLock.try_lock_shared c = (b, c1) → AtomicStep c c1
  | unlockSh {c : Nat} :
      1 ≤ c → c < AtomicLock.EXCLUSIVE_FLAG →
      AtomicStep c (AtomicLock.unlock_shared c)
  | lockEx {c c1 : Nat} :
      AtomicLock.lock_exclusive c = LockResult.ok c1 → AtomicStep c c1
  | tryLockEx {c : Nat} {b : Bool} {c1 : Nat} :
      AtomicLock.try_lock_exclusive c = (b, c1) → AtomicStep c c1
  | unlockEx {c : Nat} :
      AtomicLock.EXCLUSIVE_FLAG ≤ c → AtomicStep c (AtomicLock.unlock_exclusive c)

/-- One completed `SyncLock` operation, counter to counter.  A parked
acquisition (`LockResult.blocked`) never returns in the sequential model,
so it contributes no step.  The `unlock_exclusive` precondition is the
disjunction the code itself `debug_assert`s. -/
inductive SyncStep : Nat → Nat → Prop where
  | lockSh {c c1 : Nat} :
      SyncLock.lock_shared c = LockResult.ok c1 → SyncStep c c1
  | tryLockSh {c : Nat} {b : Bool} {c1 : Nat} :
      SyncLock.try_lock_shared c = (b, c1) → SyncStep c c1
  | unlockSh {c : Nat} :
      1 ≤ c → c < SyncLock.EXCLUSIVE_FLAG → SyncStep c (SyncLock.unlock_shared c)
  | lockEx {c c1 : Nat} :
      SyncLock.lock_exclusive c = LockResult.ok c1 → SyncStep c c1
  | tryLockEx {c : Nat} {b : Bool} {c1 : Nat} :
      SyncLock.try_lock_exclusive c = (b, c1) → SyncStep c c1
  | unlockEx {c : Nat} :
      (c = SyncLock.EXCLUSIVE_FLAG ∨ c = SyncLock.EXCLUSIVE_FLAG + 1 ∨
       c = SyncLock.PARKED_FLAG + SyncLock.EXCLUSIVE_FLAG) →
      SyncStep c (SyncLock.unlock_exclusive c)

/-- Counter values reachable from the freshly constructed lock (`new()`
initializes the counter to `0`) by completed operations of `R`. -/
inductive ReachableFrom (R : Nat → Nat → Prop) : Nat → Prop where
  | init : ReachableFrom R 0
  | step {c c1 : Nat} : ReachableFrom R c → R c c1 → ReachableFrom R c1

lemma atomic_try_sh_succ {c : Nat} (h : c < AtomicLock.EXCLUSIVE_FLAG / 2) :
    AtomicLock.try_lock_shared c = (true, c + 1) := by
  simp only [AtomicLock.try_lock_shared, AtomicLock.EXCLUSIVE_FLAG, WORD] at h ⊢
  split
  next h2 =>
    have he : (c + 1) % 18446744073709551616 = c + 1 := by omega
    rw [he]
  next h2 => exact absurd h h2

lemma atomic_try_sh_fail {c : Nat} (hc : c < WORD) (h : AtomicLock.EXCLUSIVE_FLAG / 2 ≤ c) :
    AtomicLock.try_lock_shared c = (false, c) := by
  simp only [AtomicLock.try_lock_shared, AtomicLock.EXCLUSIVE_FLAG, WORD] at h hc ⊢
  split
  next h2 => exact absurd h2 (by omega)
  next h2 =>
    have he : ((c + 1) % 18446744073709551616 + (18446744073709551616 - 1)) %
        18446744073709551616 = c := by omega
    rw [he]

/-- Claim C1: dropping a `Cryo` or `CryoMut` performs exactly one exclusive
acquisition on its lock and never releases it: on any of the three backends
a drop with counter `0` completes leaving the counter at that backend's
exclusive sentinel, and on `LocalLock` a drop with a nonzero counter
(an outstanding guard) aborts with the fatal "deadlock" report. -/
theorem cryo_drop_exclusive_acquire (d c : Nat) :
    (Cryo.dropCell localOps ⟨d, 0⟩ = LockResult.ok LocalLock.EXCLUSIVE ∧
     CryoMut.dropCell localOps ⟨d, 0⟩ = LockResult.ok LocalLock.EXCLUSIVE) ∧
    (Cryo.dropCell atomicOps ⟨d, 0⟩ = LockResult.ok AtomicLock.EXCLUSIVE_FLAG ∧
     CryoMut.dropCell atomicOps ⟨d, 0⟩ = LockResult.ok AtomicLock.EXCLUSIVE_FLAG) ∧
    (Cryo.dropCell syncOps ⟨d, 0⟩ = LockResult.ok SyncLock.EXCLUSIVE_FLAG ∧
     CryoMut.dropCell syncOps ⟨d, 0⟩ = LockResult.ok SyncLock.EXCLUSIVE_FLAG) ∧
    (c ≠ 0 →
      Cryo.dropCell localOps ⟨d, c⟩ = LockResult.panics deadlockMsg c ∧
      CryoMut.dropCell localOps ⟨d, c⟩ = LockResult.panics deadlockMsg c) := by
  refine ⟨⟨rfl, rfl⟩, ⟨rfl, rfl⟩, ⟨rfl, rfl⟩, fun h => ?_⟩
  constructor <;>
  · show LocalLock.lock_exclusive c = _
    unfold LocalLock.lock_exclusive
    rw [if_pos h]

theorem cryo_drop_exclusive_acquire_witness :
    Cryo.dropCell localOps ⟨42, 0⟩ = LockResult.ok LocalLock.EXCLUSIVE ∧
    Cryo.dropCell localOps ⟨42, 1⟩ = LockResult.panics deadlockMsg 1 :=
  ⟨(cryo_drop_exclusive_acquire 42 1).1.1,
   ((cryo_drop_exclusive_acquire 42 1).2.2.2 (by decide)).1⟩

/-- Claim C2: on each of the three backends, `try_lock_exclusive` returns
`true` iff the counter is `0`; after a success the counter equals the
backend's exclusive sentinel, and a failure returns `false` leaving the
counter unchanged. -/
theorem try_lock_exclusive_iff_zero (c : Nat) :
    ((LocalLock.try_lock_exclusive c).1 = true ↔ c = 0) ∧
    ((AtomicLock.try_lock_exclusive c).1 = true ↔ c = 0) ∧
    ((SyncLock.try_lock_exclusive c).1 = true ↔ c = 0) ∧
    (c = 0 →
      LocalLock.try_lock_exclusive c = (true, LocalLock.EXCLUSIVE) ∧
      AtomicLock.try_lock_exclusive c = (true, AtomicLock.EXCLUSIVE_FLAG) ∧
      SyncLock.try_lock_exclusive c = (true, SyncLock.EXCLUSIVE_FLAG)) ∧
    (c ≠ 0 →
      LocalLock.try_lock_exclusive c = (false, c) ∧
      AtomicLock.try_lock_exclusive c = (false, c) ∧
      SyncLock.try_lock_exclusive c = (false, c)) := by
  by_cases h : c = 0
  · subst h
    exact ⟨by decide, by decide, by decide, fun _ => ⟨rfl, rfl, rfl⟩,
           fun hn => absurd rfl hn⟩
  · have e1 : LocalLock.try_lock_exclusive c = (false, c) := by
      unfold LocalLock.try_lock_exclusive
      rw [if_pos h]
    have e2 : AtomicLock.try_lock_exclusive c = (false, c) := by
      unfold AtomicLock.try_lock_exclusive
      rw [if_neg h]
    have e3 : SyncLock.try_lock_exclusive c = (false, c) := by
      unfold SyncLock.try_lock_exclusive
      rw [if_neg h]
    exact ⟨by simp [e1, h], by simp [e2, h], by simp [e3, h],
           fun h0 => absurd h0 h, fun _ => ⟨e1, e2, e3⟩⟩

theorem try_lock_exclusive_iff_zero_witness :
    LocalLock.try_lock_exclusive 0 = (true, LocalLock.EXCLUSIVE) ∧
    AtomicLock.try_lock_exclusive 0 = (true, AtomicLock.EXCLUSIVE_FLAG) ∧
    SyncLock.try_lock_exclusive 0 = (true, SyncLock.EXCLUSIVE_FLAG) ∧
    LocalLock.try_lock_exclusive 5 = (false, 5) :=
  ⟨((try_lock_exclusive_iff_zero 0).2.2.2.1 rfl).1,
   ((try_lock_exclusive_iff_zero 0).2.2.2.1 rfl).2.1,
   ((try_lock_exclusive_iff_zero 0).2.2.2.1 rfl).2.2,
   ((try_lock_exclusive_iff_zero 5).2.2.2.2 (by decide)).1⟩

/-- Claim C3: on each backend, `try_lock_shared` called while the counter
holds the exclusive encoding returns `false` and leaves the counter in
exactly the exclusive state it had before the call. -/
theorem try_lock_shared_exclusive_noop :
    LocalLock.try_lock_shared LocalLock.EXCLUSIVE = (false, LocalLock.EXCLUSIVE) ∧
    AtomicLock.try_lock_shared AtomicLock.EXCLUSIVE_FLAG =
      (false, AtomicLock.EXCLUSIVE_FLAG) ∧
    SyncLock.try_lock_shared SyncLock.EXCLUSIVE_FLAG =
      (false, SyncLock.EXCLUSIVE_FLAG) := by
  decide

/-- Claim C4: `LocalLock::lock_shared` aborts with the fatal "deadlock"
report exactly when the counter equals the exclusive sentinel or is one
below it, and for every other counter value it increments the counter by
one and returns normally. -/
theorem local_lock_shared_deadlock_iff (c : Nat) (hc : c ≤ LocalLock.EXCLUSIVE) :
    (LocalLock.lock_shared c = LockResult.panics deadlockMsg c ↔
      (c = LocalLock.EXCLUSIVE ∨ c = LocalLock.EXCLUSIVE - 1)) ∧
    (¬(c = LocalLock.EXCLUSIVE ∨ c = LocalLock.EXCLUSIVE - 1) →
      LocalLock.lock_shared c = LockResult.ok (c + 1)) := by
  simp only [LocalLock.lock_shared, LocalLock.EXCLUSIVE, WORD] at *
  split
  next h =>
    exact ⟨⟨fun _ => by omega, fun _ => rfl⟩, fun hn => absurd (by omega) hn⟩
  next h =>
    exact ⟨⟨fun he => by simp at he, fun hor => absurd hor (by omega)⟩, fun _ => rfl⟩

theorem local_lock_shared_deadlock_iff_witness :
    LocalLock.lock_shared 3 = LockResult.ok 4 ∧
    LocalLock.lock_shared LocalLock.EXCLUSIVE =
      LockResult.panics deadlockMsg LocalLock.EXCLUSIVE :=
  ⟨(local_lock_shared_deadlock_iff 3 (by decide)).2 (by decide),
   (local_lock_shared_deadlock_iff LocalLock.EXCLUSIVE (by decide)).1.2 (Or.inl rfl)⟩

/-- Claim C5 counterexample: with the counter at `EXCLUSIVE_FLAG / 2`
(2^62), the speculative increment does not cross into the exclusive
encoding's territory — the result is still strictly below
`EXCLUSIVE_FLAG` — yet `AtomicLock::lock_shared` aborts (increment
reverted) instead of succeeding with the counter incremented. -/
theorem atomic_lock_shared_threshold_cx :
    AtomicLock.lock_shared 4611686018427387904 =
      LockResult.panics lockedMsg 4611686018427387904 ∧
    4611686018427387904 + 1 < AtomicLock.EXCLUSIVE_FLAG := by
  decide

/-- Claim C5 (amended): `AtomicLock::lock_shared` speculatively increments
and then aborts — first reverting the increment so the counter is
net-unchanged — exactly when the counter's previous value was at least
`EXCLUSIVE_FLAG / 2`, a deliberately early threshold below exclusive
territory that keeps the counter from overflowing into it; for every
prior value below `EXCLUSIVE_FLAG / 2` the acquisition succeeds with the
counter incremented by one. -/
theorem atomic_lock_shared_threshold (c : Nat) (hc : c < WORD) :
    (c < AtomicLock.EXCLUSIVE_FLAG / 2 →
      AtomicLock.lock_shared c = LockResult.ok (c + 1)) ∧
    (AtomicLock.EXCLUSIVE_FLAG / 2 ≤ c →
      AtomicLock.lock_shared c = LockResult.panics lockedMsg c) := by
  constructor
  · intro h
    unfold AtomicLock.lock_shared
    rw [atomic_try_sh_succ h]
  · intro h
    unfold AtomicLock.lock_shared
    rw [atomic_try_sh_fail hc h]

theorem atomic_lock_shared_threshold_witness :
    AtomicLock.lock_shared 0 = LockResult.ok 1 ∧
    AtomicLock.lock_shared AtomicLock.EXCLUSIVE_FLAG =
      LockResult.panics lockedMsg AtomicLock.EXCLUSIVE_FLAG :=
  ⟨(atomic_lock_shared_threshold 0 (by decide)).1 (by decide),
   (atomic_lock_shared_threshold AtomicLock.EXCLUSIVE_FLAG (by decide)).2 (by decide)⟩

/-- Claim C8: on `SyncLock`, a shared acquisition from a shared-range
counter whose increment would reach the reserved high range
(`EXCLUSIVE_FLAG - 1` and above) first reverts its speculative increment
and aborts with the fatal "lock counter overflow" report, leaving the
counter net-unchanged; every other shared acquisition from the shared
range succeeds with the counter incremented. -/
theorem sync_lock_shared_overflow_abort (c : Nat)
    (hc : c ≤ SyncLock.EXCLUSIVE_FLAG - 2) :
    (c = SyncLock.EXCLUSIVE_FLAG - 2 →
      SyncLock.lock_shared c = LockResult.panics overflowMsg c) ∧
    (c < SyncLock.EXCLUSIVE_FLAG - 2 →
      SyncLock.lock_shared c = LockResult.ok (c + 1)) := by
  constructor
  · intro h
    subst h
    decide
  · intro h
    unfold SyncLock.lock_shared
    rw [if_pos h]
    simp only [SyncLock.EXCLUSIVE_FLAG, WORD] at h ⊢
    have he : (c + 1) % 18446744073709551616 = c + 1 := by omega
    rw [he]

theorem sync_lock_shared_overflow_abort_witness :
    SyncLock.lock_shared 4611686018427387902 =
      LockResult.panics overflowMsg 4611686018427387902 ∧
    SyncLock.lock_shared 7 = LockResult.ok 8 :=
  ⟨(sync_lock_shared_overflow_abort 4611686018427387902 (by decide)).1 (by decide),
   (sync_lock_shared_overflow_abort 7 (by decide)).2 (by decide)⟩

/-- Claim C10: `AtomicLock::try_lock_shared` returns `true` iff the
counter's prior value is strictly below `EXCLUSIVE_FLAG / 2`; at or above
that threshold it returns `false` with the counter net-unchanged, even
though the threshold sits below the greatest representable reader count
`EXCLUSIVE_FLAG - 1`. -/
theorem atomic_try_lock_shared_threshold (c : Nat) (hc : c < WORD) :
    ((AtomicLock.try_lock_shared c).1 = true ↔ c < AtomicLock.EXCLUSIVE_FLAG / 2) ∧
    (c < AtomicLock.EXCLUSIVE_FLAG / 2 →
      AtomicLock.try_lock_shared c = (true, c + 1)) ∧
    (AtomicLock.EXCLUSIVE_FLAG / 2 ≤ c →
      AtomicLock.try_lock_shared c = (false, c)) ∧
    AtomicLock.EXCLUSIVE_FLAG / 2 < AtomicLock.EXCLUSIVE_FLAG - 1 := by
  refine ⟨⟨fun ht => ?_, fun h => by rw [atomic_try_sh_succ h]⟩,
          fun h => atomic_try_sh_succ h, fun h => atomic_try_sh_fail hc h,
          by decide⟩
  by_contra hlt
  rw [atomic_try_sh_fail hc (Nat.le_of_not_lt hlt)] at ht
  simp at ht

theorem atomic_try_lock_shared_threshold_witness :
    AtomicLock.try_lock_shared 4611686018427387904 =
      (false, 4611686018427387904) ∧
    AtomicLock.try_lock_shared 0 = (true, 1) :=
  ⟨(atomic_try_lock_shared_threshold 4611686018427387904 (by decide)).2.2.1
      (by decide),
   (atomic_try_lock_shared_threshold 0 (by decide)).2.1 (by decide)⟩

/-- Claim C6: on each backend, `CryoMut::try_get_mut` returns direct
access to the value through the stored address iff the lock counter is
`0`, and on success the exclusive lock it briefly took is released again
so the counter is back to `0`; with any guard outstanding (counter
nonzero, e.g. a shared guard) it returns nothing and leaves the counter
unchanged, and dropping a single outstanding read guard brings the
counter back to `0`, after which a call succeeds. -/
theorem try_get_mut_iff_unlocked (d c : Nat) :
    ((CryoMut.try_get_mut localOps ⟨d, c⟩).1 = some d ↔ c = 0) ∧
    ((CryoMut.try_get_mut atomicOps ⟨d, c⟩).1 = some d ↔ c = 0) ∧
    ((CryoMut.try_get_mut syncOps ⟨d, c⟩).1 = some d ↔ c = 0) ∧
    (CryoMut.try_get_mut localOps ⟨d, 0⟩ = (some d, ⟨d, 0⟩) ∧
     CryoMut.try_get_mut atomicOps ⟨d, 0⟩ = (some d, ⟨d, 0⟩) ∧
     CryoMut.try_get_mut syncOps ⟨d, 0⟩ = (some d, ⟨d, 0⟩)) ∧
    (c ≠ 0 →
      CryoMut.try_get_mut localOps ⟨d, c⟩ = (none, ⟨d, c⟩) ∧
      CryoMut.try_get_mut atomicOps ⟨d, c⟩ = (none, ⟨d, c⟩) ∧
      CryoMut.try_get_mut syncOps ⟨d, c⟩ = (none, ⟨d, c⟩)) ∧
    (CryoMutReadGuard.dropGuard localOps 1 = 0 ∧
     CryoMutReadGuard.dropGuard atomicOps 1 = 0 ∧
     CryoMutReadGuard.dropGuard syncOps 1 = 0) := by
  have g1 : CryoMut.try_get_mut localOps ⟨d, 0⟩ = (some d, ⟨d, 0⟩) := rfl
  have g2 : CryoMut.try_get_mut atomicOps ⟨d, 0⟩ = (some d, ⟨d, 0⟩) := rfl
  have g3 : CryoMut.try_get_mut syncOps ⟨d, 0⟩ = (some d, ⟨d, 0⟩) := rfl
  by_cases h : c = 0
  · subst h
    exact ⟨by simp [g1], by simp [g2], by simp [g3], ⟨g1, g2, g3⟩,
           fun hn => absurd rfl hn, ⟨rfl, rfl, rfl⟩⟩
  · have e1 : CryoMut.try_get_mut localOps ⟨d, c⟩ = (none, ⟨d, c⟩) := by
      simp [CryoMut.try_get_mut, localOps, LocalLock.try_lock_exclusive, h]
    have e2 : CryoMut.try_get_mut atomicOps ⟨d, c⟩ = (none, ⟨d, c⟩) := by
      simp [CryoMut.try_get_mut, atomicOps, AtomicLock.try_lock_exclusive, h]
    have e3 : CryoMut.try_get_mut syncOps ⟨d, c⟩ = (none, ⟨d, c⟩) := by
      simp [CryoMut.try_get_mut, syncOps, SyncLock.try_lock_exclusive, h]
    exact ⟨by simp [e1, h], by simp [e2, h], by simp [e3, h], ⟨g1, g2, g3⟩,
           fun _ => ⟨e1, e2, e3⟩, ⟨rfl, rfl, rfl⟩⟩

theorem try_get_mut_iff_unlocked_witness :
    CryoMut.try_get_mut localOps ⟨42, 0⟩ = (some 42, ⟨42, 0⟩) ∧
    CryoMut.try_get_mut localOps ⟨42, 1⟩ = (none, ⟨42, 1⟩) ∧
    CryoMutReadGuard.dropGuard localOps 1 = 0 :=
  ⟨(try_get_mut_iff_unlocked 42 1).2.2.2.1.1,
   ((try_get_mut_iff_unlocked 42 1).2.2.2.2.1 (by decide)).1,
   (try_get_mut_iff_unlocked 42 1).2.2.2.2.2.1⟩

lemma goodSeq_append_left (bound : Nat) :
    ∀ (pre suf : List ShOp) (n : Nat), goodSeq bound n (pre ++ suf) = true →
      goodSeq bound n pre = true := by
  intro pre
  induction pre with
  | nil => intro suf n _; rfl
  | cons op r ih =>
    intro suf n h
    cases op <;>
    · simp only [List.cons_append, goodSeq, Bool.and_eq_true,
        decide_eq_true_eq] at h ⊢
      exact ⟨h.1, ih suf _ h.2⟩

lemma finalCnt_counts (bound : Nat) :
    ∀ (ops : List ShOp) (n : Nat), goodSeq bound n ops = true →
      finalCnt n ops + countRel ops = n + countAcq ops := by
  intro ops
  induction ops with
  | nil => intro n _; rfl
  | cons op r ih =>
    intro n h
    cases op
    · simp only [goodSeq, Bool.and_eq_true, decide_eq_true_eq] at h
      have := ih (n + 1) h.2
      simp only [finalCnt, countRel, countAcq]
      omega
    · simp only [goodSeq, Bool.and_eq_true, decide_eq_true_eq] at h
      have := ih (n - 1) h.2
      simp only [finalCnt, countRel, countAcq]
      omega

lemma runShared_good (L : LockOps) (bound : Nat)
    (hlock : ∀ n, n < bound → L.lockShared n = LockResult.ok (n + 1))
    (hunlock : ∀ n, 0 < n → n ≤ bound → L.unlockShared n = n - 1) :
    ∀ (ops : List ShOp) (n : Nat), goodSeq bound n ops = true → n ≤ bound →
      runShared L ops n = LockResult.ok (finalCnt n ops) := by
  intro ops
  induction ops with
  | nil => intro n _ _; rfl
  | cons op r ih =>
    intro n h hn
    cases op
    · simp only [goodSeq, Bool.and_eq_true, decide_eq_true_eq] at h
      simp only [runShared, hlock n h.1, finalCnt]
      exact ih (n + 1) h.2 h.1
    · simp only [goodSeq, Bool.and_eq_true, decide_eq_true_eq] at h
      simp only [runShared, hunlock n h.1 hn, finalCnt]
      exact ih (n - 1) h.2 (by omega)

lemma local_hlock : ∀ n, n < LocalLock.EXCLUSIVE - 1 →
    localOps.lockShared n = LockResult.ok (n + 1) := by
  intro n h
  show LocalLock.lock_shared n = _
  unfold LocalLock.lock_shared
  rw [if_neg (Nat.not_le.mpr h)]

lemma local_hunlock : ∀ n, 0 < n → n ≤ LocalLock.EXCLUSIVE - 1 →
    localOps.unlockShared n = n - 1 := by
  intro n h1 h2
  show LocalLock.unlock_shared n = _
  simp only [LocalLock.unlock_shared, LocalLock.EXCLUSIVE, WORD] at h2 ⊢
  omega

/-- Claim C7: starting unlocked, any well-formed sequence of shared
acquisitions (`borrow`/`read`/guard clone) and releases (guard drop) on a
`LocalLock`-backed cell — each release matching a live guard, with the
live count staying below the abort threshold — keeps the counter equal to
the number of live shared guards (acquisitions minus releases) at every
prefix, and the counter is `0` again after the last release of a balanced
sequence. -/
theorem shared_balance_counter (ops : List ShOp)
    (h : goodSeq (LocalLock.EXCLUSIVE - 1) 0 ops = true) :
    (∀ pre suf, ops = pre ++ suf →
      runShared localOps pre 0 = LockResult.ok (countAcq pre - countRel pre)) ∧
    (countAcq ops = countRel ops →
      runShared localOps ops 0 = LockResult.ok 0) := by
  have main : ∀ pre suf, ops = pre ++ suf →
      runShared localOps pre 0 = LockResult.ok (countAcq pre - countRel pre) := by
    intro pre suf hps
    have hpre : goodSeq (LocalLock.EXCLUSIVE - 1) 0 pre = true :=
      goodSeq_append_left _ pre suf 0 (hps ▸ h)
    have hrun := runShared_good localOps _ local_hlock local_hunlock pre 0 hpre
      (Nat.zero_le _)
    have hcnt := finalCnt_counts _ pre 0 hpre
    rw [hrun]
    have he : finalCnt 0 pre = countAcq pre - countRel pre := by omega
    rw [he]
  refine ⟨main, fun hbal => ?_⟩
  have hm := main ops [] (by simp)
  rw [hm, Nat.sub_eq_zero_of_le (le_of_eq hbal)]

theorem shared_balance_counter_witness :
    runShared localOps [ShOp.acquire, ShOp.acquire, ShOp.release] 0 =
      LockResult.ok 1 ∧
    runShared localOps
      [ShOp.acquire, ShOp.acquire, ShOp.release, ShOp.release] 0 =
      LockResult.ok 0 := by
  obtain ⟨hpre, hbal⟩ := shared_balance_counter
    [ShOp.acquire, ShOp.acquire, ShOp.release, ShOp.release] (by decide)
  constructor
  · have hp := hpre [ShOp.acquire, ShOp.acquire, ShOp.release] [ShOp.release] rfl
    simpa [countAcq, countRel] using hp
  · exact hbal (by decide)

lemma localStep_preserves {c c1 : Nat} (h : LocalStep c c1) (hInv : localInv c) :
    localInv c1 := by
  cases h with
  | lockSh he =>
    simp only [LocalLock.lock_shared] at he
    split at he
    · exact LockResult.noConfusion he
    next h2 =>
      cases he
      simp only [localInv, localShared, LocalLock.EXCLUSIVE, WORD] at *
      omega
  | tryLockSh he =>
    simp only [LocalLock.try_lock_shared] at he
    split at he
    · cases he
      exact hInv
    next h2 =>
      cases he
      simp only [localInv, localShared, LocalLock.EXCLUSIVE, WORD] at *
      omega
  | unlockSh h1 h2 =>
    simp only [LocalLock.unlock_shared, localInv, localShared,
      LocalLock.EXCLUSIVE, WORD] at *
    omega
  | lockEx he =>
    simp only [LocalLock.lock_exclusive] at he
    split at he
    · exact LockResult.noConfusion he
    next h2 =>
      cases he
      exact Or.inr (Or.inr rfl)
  | tryLockEx he =>
    simp only [LocalLock.try_lock_exclusive] at he
    split at he
    · cases he
      exact hInv
    next h2 =>
      cases he
      exact Or.inr (Or.inr rfl)
  | unlockEx h1 => exact Or.inl rfl

lemma atomicStep_preserves {c c1 : Nat} (h : AtomicStep c c1)
    (hInv : atomicInv c) : atomicInv c1 := by
  have hc : c < WORD := by
    simp only [atomicInv, atomicShared, AtomicLock.EXCLUSIVE_FLAG, WORD] at hInv ⊢
    omega
  cases h with
  | lockSh he =>
    by_cases hlt : c < AtomicLock.EXCLUSIVE_FLAG / 2
    · simp only [AtomicLock.lock_shared, atomic_try_sh_succ hlt] at he
      cases he
      simp only [atomicInv, atomicShared, AtomicLock.EXCLUSIVE_FLAG] at *
      omega
    · simp only [AtomicLock.lock_shared,
        atomic_try_sh_fail hc (Nat.le_of_not_lt hlt)] at he
      exact LockResult.noConfusion he
  | tryLockSh he =>
    by_cases hlt : c < AtomicLock.EXCLUSIVE_FLAG / 2
    · rw [atomic_try_sh_succ hlt] at he
      cases he
      simp only [atomicInv, atomicShared, AtomicLock.EXCLUSIVE_FLAG] at *
      omega
    · rw [atomic_try_sh_fail hc (Nat.le_of_not_lt hlt)] at he
      cases he
      exact hInv
  | unlockSh h1 h2 =>
    simp only [AtomicLock.unlock_shared, atomicInv, atomicShared,
      AtomicLock.EXCLUSIVE_FLAG, WORD] at *
    omega
  | lockEx he =>
    by_cases h0 : c = 0
    · subst h0
      have hev : AtomicLock.lock_exclusive 0 =
          LockResult.ok AtomicLock.EXCLUSIVE_FLAG := rfl
      rw [hev] at he
      cases he
      exact Or.inr (Or.inr rfl)
    · have hev : AtomicLock.lock_exclusive c = LockResult.panics lockedMsg c := by
        simp only [AtomicLock.lock_exclusive, AtomicLock.try_lock_exclusive]
        rw [if_neg h0]
      rw [hev] at he
      exact LockResult.noConfusion he
  | tryLockEx he =>
    by_cases h0 : c = 0
    · subst h0
      have hev : AtomicLock.try_lock_exclusive 0 =
          (true, AtomicLock.EXCLUSIVE_FLAG) := rfl
      rw [hev] at he
      cases he
      exact Or.inr (Or.inr rfl)
    · have hev : AtomicLock.try_lock_exclusive c = (false, c) := by
        simp only [AtomicLock.try_lock_exclusive]
        rw [if_neg h0]
      rw [hev] at he
      cases he
      exact hInv
  | unlockEx h1 =>
    simp only [AtomicLock.unlock_exclusive, atomicInv, atomicShared,
      AtomicLock.EXCLUSIVE_FLAG, WORD] at *
    omega

lemma syncStep_preserves {c c1 : Nat} (h : SyncStep c c1) (hInv : syncInv c) :
    syncInv c1 := by
  cases h with
  | lockSh he =>
    by_cases hfast : c < SyncLock.EXCLUSIVE_FLAG - 2
    · simp only [SyncLock.lock_shared] at he
      rw [if_pos hfast] at he
      cases he
      simp only [syncInv, syncShared, SyncLock.EXCLUSIVE_FLAG, WORD] at *
      omega
    · have hcase : c = SyncLock.EXCLUSIVE_FLAG - 2 ∨ c = SyncLock.EXCLUSIVE_FLAG := by
        simp only [syncInv, syncShared, SyncLock.EXCLUSIVE_FLAG] at hInv hfast ⊢
        omega
      rcases hcase with h2 | h2 <;> subst h2
      · have hev : SyncLock.lock_shared (SyncLock.EXCLUSIVE_FLAG - 2) =
            LockResult.panics overflowMsg (SyncLock.EXCLUSIVE_FLAG - 2) := by decide
        rw [hev] at he
        exact LockResult.noConfusion he
      · have hev : SyncLock.lock_shared SyncLock.EXCLUSIVE_FLAG =
            LockResult.blocked (SyncLock.PARKED_FLAG + SyncLock.EXCLUSIVE_FLAG) := by
          decide
        rw [hev] at he
        exact LockResult.noConfusion he
  | tryLockSh he =>
    simp only [SyncLock.try_lock_shared] at he
    by_cases hfast : c < SyncLock.EXCLUSIVE_FLAG - 2
    · rw [if_pos hfast] at he
      cases he
      simp only [syncInv, syncShared, SyncLock.EXCLUSIVE_FLAG, WORD] at *
      omega
    · rw [if_neg hfast] at he
      cases he
      simp only [syncInv, syncShared, SyncLock.EXCLUSIVE_FLAG, WORD] at *
      omega
  | unlockSh h1 h2 =>
    simp only [SyncLock.unlock_shared, syncInv, syncShared,
      SyncLock.EXCLUSIVE_FLAG, SyncLock.PARKED_FLAG, WORD] at *
    split <;> omega
  | lockEx he =>
    by_cases h0 : c = 0
    · subst h0
      have hev : SyncLock.lock_exclusive 0 =
          LockResult.ok SyncLock.EXCLUSIVE_FLAG := rfl
      rw [hev] at he
      cases he
      exact Or.inr (Or.inr rfl)
    · simp only [SyncLock.lock_exclusive, SyncLock.lock_exclusive_slow] at he
      rw [if_neg h0, if_neg h0] at he
      exact LockResult.noConfusion he
  | tryLockEx he =>
    by_cases h0 : c = 0
    · subst h0
      have hev : SyncLock.try_lock_exclusive 0 =
          (true, SyncLock.EXCLUSIVE_FLAG) := rfl
      rw [hev] at he
      cases he
      exact Or.inr (Or.inr rfl)
    · simp only [SyncLock.try_lock_exclusive] at he
      rw [if_neg h0] at he
      cases he
      exact hInv
  | unlockEx hpre =>
    have hE : c = SyncLock.EXCLUSIVE_FLAG := by
      simp only [syncInv, syncShared, SyncLock.EXCLUSIVE_FLAG,
        SyncLock.PARKED_FLAG] at hInv hpre ⊢
      omega
    subst hE
    have hev : SyncLock.unlock_exclusive SyncLock.EXCLUSIVE_FLAG = 0 := by decide
    rw [hev]
    exact Or.inl rfl

lemma reach_inv {R : Nat → Nat → Prop} {Inv : Nat → Prop}
    (pres : ∀ c c1, R c c1 → Inv c → Inv c1) (h0 : Inv 0) :
    ∀ c, ReachableFrom R c → Inv c := by
  intro c h
  induction h with
  | init => exact h0
  | step hr hs ih => exact pres _ _ hs ih

/-- Claim C9: for each backend, every single completed lock operation
preserves — and hence every counter state reachable from the initial
unlocked state satisfies — the three-way disjunction "unlocked, pure
shared-holder count, or exclusive encoding"; the three encodings are
pairwise disjoint, so a nonzero reader count never coincides with the
exclusive sentinel. -/
theorem lock_counter_invariant :
    ((∀ c c1, LocalStep c c1 → localInv c → localInv c1) ∧
     (∀ c, ReachableFrom LocalStep c → localInv c)) ∧
    ((∀ c c1, AtomicStep c c1 → atomicInv c → atomicInv c1) ∧
     (∀ c, ReachableFrom AtomicStep c → atomicInv c)) ∧
    ((∀ c c1, SyncStep c c1 → syncInv c → syncInv c1) ∧
     (∀ c, ReachableFrom SyncStep c → syncInv c)) ∧
    (∀ c, ¬(c = 0 ∧ localShared c) ∧
      ¬(localShared c ∧ c = LocalLock.EXCLUSIVE) ∧
      ¬(c = 0 ∧ atomicShared c) ∧
      ¬(atomicShared c ∧ c = AtomicLock.EXCLUSIVE_FLAG) ∧
      ¬(c = 0 ∧ syncShared c) ∧
      ¬(syncShared c ∧ c = SyncLock.EXCLUSIVE_FLAG)) := by
  refine ⟨⟨fun c c1 hs hi => localStep_preserves hs hi,
           reach_inv (fun c c1 hs hi => localStep_preserves hs hi) (Or.inl rfl)⟩,
          ⟨fun c c1 hs hi => atomicStep_preserves hs hi,
           reach_inv (fun c c1 hs hi => atomicStep_preserves hs hi) (Or.inl rfl)⟩,
          ⟨fun c c1 hs hi => syncStep_preserves hs hi,
           reach_inv (fun c c1 hs hi => syncStep_preserves hs hi) (Or.inl rfl)⟩,
          fun c => ?_⟩
  simp only [localShared, atomicShared, syncShared, LocalLock.EXCLUSIVE,
    AtomicLock.EXCLUSIVE_FLAG, SyncLock.EXCLUSIVE_FLAG, WORD]
  omega

theorem lock_counter_invariant_witness :
    localInv 1 ∧ localInv (LocalLock.unlock_shared 1) :=
  ⟨lock_counter_invariant.1.2 1
     (ReachableFrom.step ReachableFrom.init (LocalStep.lockSh (by decide))),
   lock_counter_invariant.1.1 1 (LocalLock.unlock_shared 1)
     (LocalStep.unlockSh (by decide) (by decide))
     (lock_counter_invariant.1.2 1
       (ReachableFrom.step ReachableFrom.init (LocalStep.lockSh (by decide))))⟩
